import Mathlib

/-!
Verification of the reactivity and template-compilation core of the
pampang/vue repository, as a shallow embedding in Lean 4.

The embedding covers:
* `VJ`   — a small model of JavaScript values (`===` comparison, objects by
           reference identity) and of `observe`'s success conditions
           (src/core/observer/index.js, `observe`).
* `DEP`  — `Dep.prototype.notify` (src/core/observer/dep.js): the subscriber
           snapshot, the dev-mode sort under `!config.async`, and the
           invocation order.
* `DR`   — `defineReactive` and its `reactiveSetter` closure
           (src/core/observer/index.js, lines 146-228).
* `RX`   — the Dep/Watcher dependency bookkeeping: the target stack
           (`pushTarget`/`popTarget`/`Dep.target`), `Watcher.addDep`,
           `Watcher.cleanupDeps`, `Watcher.get`, `Dep.depend`, `dependArray`
           and the `reactiveGetter` closure.
* `SETM` — `set` (`Vue.set`, src/core/observer/index.js, lines 237-269).
* `CF`   — the `compileToFunctions` cache (src/compiler/to-function.js,
           `createCompileToFunctionFn`).
* `HP`   — the HTML scanner `parseHTML` with `parseStartTag`,
           `handleStartTag` and `parseEndTag`
           (src/compiler/parser/html-parser.js).

Throughout, the development models the development ("non-production") build:
`process.env.NODE_ENV !== 'production'` is taken to be true, warning
callbacks are taken to be installed, and `isServerRendering()` is false.
-/

namespace VJ

/-- A model of the JavaScript values that flow through the reactivity
system.  `NaN` gets its own constructor (so `num n` is never NaN), and
objects/arrays are represented by a reference `Nat` so that `===` on them is
reference equality. -/
inductive JVal where
  | undef
  | nul
  | boolean (b : Bool)
  | num (n : Int)
  | nan
  | str (s : List Char)
  | obj (ref : Nat)
deriving DecidableEq, Repr

/-- JavaScript strict equality `===` on the modelled values: `NaN === x` is
always false, objects compare by reference, everything else structurally. -/
def jsEq (a b : JVal) : Bool :=
  if a = JVal.nan ∨ b = JVal.nan then false else a = b

/-- `isObject` from src/shared/util.js: `obj !== null && typeof obj === 'object'`.
In the model both plain objects and arrays are `JVal.obj`. -/
def isObjectJ : JVal → Bool
  | JVal.obj _ => true
  | _ => false

/-- The facts about a heap object that `observe` consults. -/
structure ObjInfo where
  /-- `Array.isArray(value) || isPlainObject(value)` -/
  isArrayOrPlainObject : Bool
  /-- `Object.isExtensible(value)` -/
  extensible : Bool
  /-- `value._isVue` -/
  isVue : Bool
  /-- `value instanceof VNode` -/
  isVNode : Bool
  /-- `hasOwn(value, '__ob__') && value.__ob__ instanceof Observer` -/
  hasOb : Bool
deriving DecidableEq, Repr

/-- A heap: reference → object facts. -/
def Heap : Type := Nat → ObjInfo

/-- Whether `observe(value)` (src/core/observer/index.js, lines 119-141)
returns an Observer: non-objects and VNodes never; an existing `__ob__` is
reused; otherwise a new Observer is created when `shouldObserve` holds, the
value is an array or plain object, extensible, and not a Vue instance.
`isServerRendering()` is modelled as false. -/
def observeSucceeds (h : Heap) (shouldObserve : Bool) (v : JVal) : Bool :=
  match v with
  | JVal.obj r =>
    let i := h r
    if i.isVNode then false
    else if i.hasOb then true
    else shouldObserve && i.isArrayOrPlainObject && i.extensible && !i.isVue
  | _ => false

end VJ

namespace DEP

/-- `subs.sort((a, b) => a.id - b.id)` on the snapshot: ascending sort of the
subscriber ids (ids are unique, so any correct comparison sort agrees). -/
def sortById (l : List Nat) : List Nat :=
  l.insertionSort (· ≤ ·)

/-- `Dep.prototype.notify` (src/core/observer/dep.js, lines 46-58), reduced
to the order in which `update()` is invoked: the current subscriber list is
snapshotted (`this.subs.slice()`), sorted by ascending id when
`!config.async` (the development build is modelled, so the
`process.env.NODE_ENV !== 'production'` guard is true), and each snapshot
entry is updated in order. -/
def notifyOrder (async : Bool) (subs : List Nat) : List Nat :=
  let snapshot := subs
  if !async then sortById snapshot else snapshot

/-- One notification round: `effect w` is the list of subscribers that
watcher `w`'s `update()` adds to this Dep's live list while the round runs.
Returns (invocation order, final live subscriber list).  The loop iterates
over the snapshot, so additions to the live list never join this round. -/
def notifyRound (async : Bool) (subs : List Nat) (effect : Nat → List Nat) :
    List Nat × List Nat :=
  let snapshot := notifyOrder async subs
  (snapshot, snapshot.foldl (fun live w => live ++ effect w) subs)

end DEP

namespace DR

open VJ

/-- The state captured by one `defineReactive` closure: the closed-over
`val`, the current `childOb` (as a flag: whether `observe` attached an
Observer to the stored value), and the closure `dep`'s subscriber list (as
watcher ids, insertion order). -/
structure RProp where
  val : JVal
  childOb : Bool
  subs : List Nat
deriving DecidableEq, Repr

/-- The no-change test of `reactiveSetter` (src/core/observer/index.js,
line 210): `newVal === value || (newVal !== newVal && value !== value)` —
identity comparison with the NaN-safe twist. -/
def noChange (newVal value : JVal) : Bool :=
  jsEq newVal value || (!jsEq newVal newVal && !jsEq value value)

/-- `reactiveSetter` (src/core/observer/index.js, lines 206-227).
`hasGetter`/`hasSetter` are the author-defined accessors captured by the
closure; when `hasGetter` the current value is read through the author
getter (its result is the `origGetVal` argument), otherwise it is the
closed-over `val`.  Returns the updated closure state and the ids notified
by `dep.notify()` (empty when no notification fires).  The dev-only
`customSetter` hook (a warning aid that `walk`/`observe` never installs) is
not modelled; it does not change any state. -/
def reactiveSetter (h : Heap) (shouldObserve async : Bool)
    (hasGetter hasSetter shallow : Bool) (origGetVal : JVal)
    (p : RProp) (newVal : JVal) : RProp × List Nat :=
  let value := if hasGetter then origGetVal else p.val
  if noChange newVal value then (p, [])
  else if hasGetter && !hasSetter then (p, [])
  else
    let p1 := if hasSetter then p else { p with val := newVal }
    let p2 := { p1 with childOb := !shallow && observeSucceeds h shouldObserve newVal }
    (p2, DEP.notifyOrder async p2.subs)

/-- The property descriptor facts `defineReactive` reads via
`Object.getOwnPropertyDescriptor`. -/
structure PropDesc where
  configurable : Bool
  hasGetter : Bool
  hasSetter : Bool
deriving DecidableEq, Repr

/-- What `Object.defineProperty` installed: the original accessors captured
by the closure, plus the initial closure state. -/
structure Installed where
  hasGetter : Bool
  hasSetter : Bool
  prop : RProp
deriving DecidableEq, Repr

/-- `defineReactive` (src/core/observer/index.js, lines 146-228).  Returns
`none` when the property is left untouched (`configurable === false`);
otherwise `Object.defineProperty` replaces the property's accessors with
the reactive getter/setter pair and the result records the closure that was
installed.  `objVal` is `obj[key]`; `valArg` is the explicit `val` argument
(`none` models the two-argument call used by `Observer.walk`, in which case
`val = obj[key]` is fetched only when `(!getter || setter)`). -/
def defineReactive (h : Heap) (shouldObserve : Bool) (d : PropDesc)
    (objVal : JVal) (valArg : Option JVal) (shallow : Bool) : Option Installed :=
  if d.configurable = false then none
  else
    let val := match valArg with
      | some v => v
      | none => if !d.hasGetter || d.hasSetter then objVal else JVal.undef
    let childOb := !shallow && observeSucceeds h shouldObserve val
    some { hasGetter := d.hasGetter, hasSetter := d.hasSetter,
           prop := { val := val, childOb := childOb, subs := [] } }

end DR

namespace RX

open VJ

/-- The shared mutable state the Dep/Watcher bookkeeping touches while one
watcher evaluates.  `tstack` is the global `targetStack` with the top of
the JS array at the head of the list (`Dep.target` is derived as the top,
which `pushTarget`/`popTarget` keep in sync in the source).  `subs d` is
Dep `d`'s subscriber list (watcher ids, push order).  `deps`/`newDeps` are
the evaluating watcher's `deps` and `newDeps` arrays (dep ids, push order);
`depIds`/`newDepIds` are the companion id sets, which the source keeps
exactly equal to the set of ids in the arrays, so membership in
`deps`/`newDeps` models them. -/
structure State where
  tstack : List (Option Nat)
  subs : Nat → List Nat
  deps : List Nat
  newDeps : List Nat

/-- `pushTarget(target)` (src/core/observer/dep.js, lines 68-71). -/
def pushTarget (t : Option Nat) (s : State) : State :=
  { s with tstack := t :: s.tstack }

/-- `popTarget()` (src/core/observer/dep.js, lines 73-76). -/
def popTarget (s : State) : State :=
  { s with tstack := s.tstack.tail }

/-- `Dep.target`: the top of the target stack (`targetStack[targetStack.length - 1]`,
`undefined` — modelled `none` — when the stack is empty). -/
def depTarget (s : State) : Option Nat :=
  s.tstack.head?.getD none

/-- `remove` from src/shared/util.js as used by `Dep.removeSub`: splice out
the first occurrence. -/
def removeFirst (w : Nat) : List Nat → List Nat
  | [] => []
  | x :: xs => if x = w then xs else x :: removeFirst w xs

/-- `Dep.prototype.addSub`: `this.subs.push(sub)`. -/
def addSub (d w : Nat) (s : State) : State :=
  { s with subs := fun x => if x = d then s.subs x ++ [w] else s.subs x }

/-- `Dep.prototype.removeSub`: `remove(this.subs, sub)`. -/
def removeSub (d w : Nat) (s : State) : State :=
  { s with subs := fun x => if x = d then removeFirst w (s.subs x) else s.subs x }

/-- `Watcher.prototype.addDep` (src/core/observer/watcher.js) for watcher
`w` reading dep `d`: skip if already collected this round (`newDepIds`),
else record it, and subscribe to the dep unless it was already a known
(previous-round) dependency (`depIds`). -/
def addDep (w d : Nat) (s : State) : State :=
  if d ∈ s.newDeps then s
  else
    let s1 := { s with newDeps := s.newDeps ++ [d] }
    if d ∈ s.deps then s1 else addSub d w s1

/-- `Watcher.prototype.cleanupDeps` for watcher `w`: unsubscribe from every
previous-round dep that was not read this round, then swap
`deps`/`newDeps` (and their id sets) and clear the new side. -/
def cleanupDeps (w : Nat) (s : State) : State :=
  let subs1 := s.deps.foldl
    (fun f d => if d ∈ s.newDeps then f
                else fun x => if x = d then removeFirst w (f x) else f x)
    s.subs
  { s with subs := subs1, deps := s.newDeps, newDeps := [] }

/-- One watcher evaluation, reduced to its dependency effects: the getter
reads the deps in `reads` in order (each read reaching `addDep` via
`Dep.depend`), after which `cleanupDeps` reconciles. -/
def runEval (w : Nat) (reads : List Nat) (s : State) : State :=
  cleanupDeps w (reads.foldl (fun s d => addDep w d s) s)

/-- `Dep.prototype.depend`: `if (Dep.target) Dep.target.addDep(this)`. -/
def depend (d : Nat) (s : State) : State :=
  match depTarget s with
  | some w => addDep w d s
  | none => s

/-- `dependArray` (src/core/observer/index.js, lines 306-314), flattened to
the list of element-Observer dep ids it reaches (including those found by
its recursion into nested arrays). -/
def dependArray (elemDeps : List Nat) (s : State) : State :=
  elemDeps.foldl (fun s d => depend d s) s

/-- `reactiveGetter` (src/core/observer/index.js, lines 179-204).  The
current value comes from the author getter when one was captured
(`origGetVal`), else from the closure `val` (`pval`).  When a watcher is
active, the closure dep is collected; if the value has a child Observer its
whole-object dep is collected too, and for array values every contained
observed element's dep (via `dependArray`). -/
def reactiveGetter (hasGetter : Bool) (origGetVal pval : JVal) (depId : Nat)
    (childObDep : Option Nat) (valueIsArray : Bool) (elemDeps : List Nat)
    (s : State) : JVal × State :=
  let value := if hasGetter then origGetVal else pval
  if (depTarget s).isSome then
    let s1 := depend depId s
    let s2 := match childObDep with
      | some c =>
        let sc := depend c s1
        if valueIsArray then dependArray elemDeps sc else sc
      | none => s1
    (value, s2)
  else (value, s)

/-- The outcome of `Watcher.prototype.get`: the getter's value, or a thrown
error either funnelled to `handleError` (user watcher) or propagated to the
caller. -/
inductive GetOutcome where
  | ok (v : JVal)
  | handled
  | propagated
deriving DecidableEq, Repr

/-- `Watcher.prototype.get` for watcher `w`: push the watcher as the active
target, run the getter, and in the `finally` block traverse the value when
deep-watching (`traverse(undefined)` after a throw returns immediately, so
the traversal only runs on a successful value), pop the target and
reconcile the dep set — on every path, including a throwing getter.  A
thrown error is funnelled to `handleError` when `user`, else rethrown after
the `finally` block runs. -/
def watcherGet (w : Nat) (user deep : Bool)
    (getter : State → State × Except Unit JVal)
    (tr : JVal → State → State) (s : State) : State × GetOutcome :=
  let s1 := pushTarget (some w) s
  let g := getter s1
  let s3 := match g.2 with
    | Except.ok v => if deep then tr v g.1 else g.1
    | Except.error _ => g.1
  let s4 := popTarget s3
  let s5 := cleanupDeps w s4
  match g.2 with
  | Except.ok v => (s5, GetOutcome.ok v)
  | Except.error _ => if user then (s5, GetOutcome.handled) else (s5, GetOutcome.propagated)

end RX

namespace SETM

open VJ

/-- Keys of `Object.prototype`, as reachable through the `in` operator
(`key in Object.prototype`). -/
def protoKeys : List (List Char) :=
  ["constructor".data, "hasOwnProperty".data, "isPrototypeOf".data,
   "propertyIsEnumerable".data, "toLocaleString".data, "toString".data,
   "valueOf".data]

/-- `isValidArrayIndex` (src/shared/util.js): a non-negative finite integer
key.  String keys are modelled, so this is "non-empty and all digits". -/
def isValidArrayIndex (k : List Char) : Bool :=
  !k.isEmpty && k.all Char.isDigit

/-- The facts about a `set` target the function reads.  `fields` are the
own enumerable properties; `present` is every key the `in` operator sees
(own and inherited); `obVmCount` is `some vmCount` when the target carries
an `__ob__` Observer. -/
structure TObj where
  isArray : Bool
  fields : List (List Char × JVal)
  present : List (List Char)
  isVue : Bool
  obVmCount : Option Nat
deriving Repr

/-- Plain `target[key] = val`: update (or create) the own field, which also
makes the key visible to `in`. -/
def setField (t : TObj) (k : List Char) (v : JVal) : TObj :=
  { t with
    fields := (k, v) :: t.fields.filter (fun f => f.1 ≠ k),
    present := if k ∈ t.present then t.present else k :: t.present }

/-- What one `set` call did. -/
structure SetOut where
  t : TObj
  ret : JVal
  /-- whether the "Avoid adding reactive properties …" warning fired -/
  warned : Bool
  /-- whether the target Observer's whole-object dep (`ob.dep`) was notified -/
  obNotified : Bool
deriving Repr

/-- `set` (src/core/observer/index.js, lines 237-269).  The target here is
always an object/array, so the dev warning for undefined/primitive targets
never fires.  For the array branch, the `splice` interceptor's
notification of the array's whole-object dep is modelled from the spec
("arrays get their mutating methods … intercepted to additionally observe
inserted elements and fire the array's whole-object Dep"), since
src/core/observer/array.js is not part of the sources. -/
def vueSet (t : TObj) (k : List Char) (v : JVal) : SetOut :=
  if t.isArray && isValidArrayIndex k then
    { t := setField t k v, ret := v, warned := false,
      obNotified := t.obVmCount.isSome }
  else if k ∈ t.present ∧ k ∉ protoKeys then
    { t := setField t k v, ret := v, warned := false, obNotified := false }
  else if t.isVue || (match t.obVmCount with | some n => n != 0 | none => false) then
    { t := t, ret := v, warned := true, obNotified := false }
  else
    match t.obVmCount with
    | none => { t := setField t k v, ret := v, warned := false, obNotified := false }
    | some _ =>
      -- defineReactive(ob.value, key, val); ob.dep.notify()
      { t := setField t k v, ret := v, warned := false, obNotified := true }

end SETM

namespace CF

/-- The state of one `compileToFunctions` closure
(src/compiler/to-function.js, `createCompileToFunctionFn`): the `cache`
object (association of key → compiled-result object), a counter that mints
fresh identities for the result objects assembled from `compile`'s output,
and the number of times the wrapped `compile` has been invoked. -/
structure CState where
  cache : List (List Char × Nat)
  nextId : Nat
  compileCount : Nat
deriving DecidableEq, Repr

/-- `cache[key]` lookup. -/
def lookupA : List (List Char × Nat) → List Char → Option Nat
  | [], _ => none
  | (k, v) :: rest, key => if k = key then some v else lookupA rest key

/-- The cache key: `options.delimiters ? String(options.delimiters) + template
: template` (`delims` is the stringified delimiters configuration). -/
def cacheKey (delims : Option (List Char)) (template : List Char) : List Char :=
  match delims with
  | some d => d ++ template
  | none => template

/-- `compileToFunctions(template, options)` reduced to its caching shape: a
hit returns the cached result object unchanged; a miss invokes `compile`
(counted by `compileCount`), builds a fresh result object (a fresh id
models its reference identity) and stores it under the key.  The dev-only
CSP probe and error/tip printing do not affect the cache or the result. -/
def compileToFunctions (delims : Option (List Char)) (template : List Char)
    (s : CState) : Nat × CState :=
  let key := cacheKey delims template
  match lookupA s.cache key with
  | some r => (r, s)
  | none =>
    (s.nextId,
     { cache := (key, s.nextId) :: s.cache,
       nextId := s.nextId + 1,
       compileCount := s.compileCount + 1 })

end CF

namespace HP

/-- Markup text, as a character list. -/
abbrev Str := List Char

/-- Lower-casing of a tag name (`.toLowerCase()`). -/
def toLowerS (s : Str) : Str := s.map Char.toLower

/-- Index of the first element satisfying `p` (the scan behind the
source's `indexOf` calls and stack searches). -/
def findIdxA (p : α → Bool) : List α → Option Nat
  | [] => none
  | x :: xs => if p x then some 0 else (findIdxA p xs).map (· + 1)

/-- The whitespace class `\s` of the source's regular expressions,
restricted to the ASCII whitespace characters (the inputs of interest are
ASCII; the Unicode spaces JavaScript additionally accepts are omitted). -/
def isWS (c : Char) : Bool :=
  c = ' ' || c = '\t' || c = '\n' || c = '\r' ||
  c = Char.ofNat 11 || c = Char.ofNat 12

/-- The character class of `unicodeRegExp` (src/core/util/lang.js, not part
of the sources; the ranges are modelled from its published definition):
`·À-ÖØ-öø-ͽͿ-῿‌-‍`
`‿-⁀⁰-↏Ⰰ-⿯、-퟿豈-﷏ﷰ-�`. -/
def isUnicodeNameChar (c : Char) : Bool :=
  let n := c.toNat
  n = 0xB7 || (0xC0 ≤ n && n ≤ 0xD6) || (0xD8 ≤ n && n ≤ 0xF6) ||
  (0xF8 ≤ n && n ≤ 0x37D) || (0x37F ≤ n && n ≤ 0x1FFF) ||
  (0x200C ≤ n && n ≤ 0x200D) || (0x203F ≤ n && n ≤ 0x2040) ||
  (0x2070 ≤ n && n ≤ 0x218F) || (0x2C00 ≤ n && n ≤ 0x2FEF) ||
  (0x3001 ≤ n && n ≤ 0xD7FF) || (0xF900 ≤ n && n ≤ 0xFDCF) ||
  (0xFDF0 ≤ n && n ≤ 0xFFFD)

/-- First character of an `ncname`: `[a-zA-Z_]`. -/
def isNCStart (c : Char) : Bool :=
  c.isAlpha || c = '_'

/-- Remaining characters of an `ncname`: `[\-\.0-9_a-zA-Z]` plus the
`unicodeRegExp` class. -/
def isNCTail (c : Char) : Bool :=
  c = '-' || c = '.' || c.isDigit || c = '_' || c.isAlpha || isUnicodeNameChar c

/-- Match an `ncname` at the head of `s`; returns the name. -/
def matchNCName (s : Str) : Option Str :=
  match s with
  | [] => none
  | c :: rest => if isNCStart c then some (c :: rest.takeWhile isNCTail) else none

/-- Match `qnameCapture` — `((?:ncname\:)?ncname)` — at the head of `s`;
returns (captured name, matched length). -/
def matchQName (s : Str) : Option (Str × Nat) :=
  match matchNCName s with
  | none => none
  | some n1 =>
    match s.drop n1.length with
    | ':' :: r2 =>
      match matchNCName r2 with
      | some n2 => some (n1 ++ ':' :: n2, n1.length + 1 + n2.length)
      | none => some (n1, n1.length)
    | _ => some (n1, n1.length)

/-- Match `startTagOpen` — `^<qnameCapture` — returning (tag name, matched
length). -/
def matchStartTagOpen (s : Str) : Option (Str × Nat) :=
  match s with
  | '<' :: rest => (matchQName rest).map (fun p => (p.1, p.2 + 1))
  | _ => none

/-- Match `endTag` — `^<\/qnameCapture[^>]*>` — returning (tag name,
matched length). -/
def matchEndTag (s : Str) : Option (Str × Nat) :=
  match s with
  | '<' :: '/' :: rest =>
    match matchQName rest with
    | some (n, l) =>
      let r := rest.drop l
      let k := (r.takeWhile (fun c => c ≠ '>')).length
      if (r.drop k).head? = some '>' then some (n, 2 + l + k + 1) else none
    | none => none
  | _ => none

/-- Match `doctype` — `^<!DOCTYPE [^>]+>` case-insensitively — returning
the matched length. -/
def matchDoctype (s : Str) : Option Nat :=
  if toLowerS (s.take 10) = "<!doctype ".data then
    let r := s.drop 10
    let k := (r.takeWhile (fun c => c ≠ '>')).length
    if 1 ≤ k ∧ (r.drop k).head? = some '>' then some (10 + k + 1) else none
  else none

/-- `comment.test(html)`: `^<!\--`. -/
def isCommentStart (s : Str) : Bool :=
  "<!--".data.isPrefixOf s

/-- `conditionalComment.test(html)`: `^<!\[`. -/
def isConditionalStart (s : Str) : Bool :=
  "<![".data.isPrefixOf s

/-- `html.indexOf(sub)`: index of the first occurrence of `needle`. -/
def findSub (needle : Str) : Str → Option Nat
  | [] => if needle.isEmpty then some 0 else none
  | c :: rest =>
    if needle.isPrefixOf (c :: rest) then some 0
    else (findSub needle rest).map (· + 1)

/-- `html.indexOf(c)`. -/
def idxOfChar (c : Char) (s : Str) : Option Nat :=
  findIdxA (· = c) s

/-- `rest.indexOf('<', 1)`: first `<` at index ≥ 1. -/
def idxOfLtFrom1 (s : Str) : Option Nat :=
  (findIdxA (· = '<') (s.drop 1)).map (· + 1)

/-- JavaScript `String.prototype.substring`, which swaps its bounds when
`a > b`. -/
def substringJS (a b : Nat) (s : Str) : Str :=
  (s.take (max a b)).drop (min a b)

/-- An attribute-name character: `[^\s"'<>\/=]`. -/
def isAttrNameChar (c : Char) : Bool :=
  !(isWS c || c = '"' || c = Char.ofNat 39 || c = '<' || c = '>' ||
    c = '/' || c = '=')

/-- An unquoted attribute-value character.  The source class also excludes
the backtick (character 96). -/
def isUnquotedChar (c : Char) : Bool :=
  !(isWS c || c = '"' || c = Char.ofNat 39 || c = '=' || c = '<' ||
    c = '>' || c = Char.ofNat 96)

/-- One raw attribute match: the name capture, the collapsed value capture
(groups 3/4/5 of the regexps, `none` when the optional value part is
absent), and the total matched length. -/
structure AttrMatch where
  name : Str
  value : Option Str
  len : Nat
deriving DecidableEq, Repr

/-- The optional value part shared by `attribute` and
`dynamicArgAttribute`: `(?:\s*(=)\s*(?:"([^"]*)"+|'([^']*)'+|([^\s"'=<>`]+)))?`.
Returns `some (value, extra length)` when the full group matches, `none`
when the optional group is absent (including when `=` is present but every
value alternative fails, in which case the regexp drops the whole optional
group). -/
def matchValuePart (s : Str) : Option (Str × Nat) :=
  let w2 := (s.takeWhile isWS).length
  match s.drop w2 with
  | '=' :: r4 =>
    let w3 := (r4.takeWhile isWS).length
    let r5 := r4.drop w3
    match r5 with
    | [] => none
    | q :: r6 =>
      if q = '"' then
        let v := r6.takeWhile (fun c => c ≠ '"')
        let qn := ((r6.drop v.length).takeWhile (fun c => c = '"')).length
        if 1 ≤ qn then some (v, w2 + 1 + w3 + 1 + v.length + qn) else none
      else if q = Char.ofNat 39 then
        let v := r6.takeWhile (fun c => c ≠ Char.ofNat 39)
        let qn := ((r6.drop v.length).takeWhile (fun c => c = Char.ofNat 39)).length
        if 1 ≤ qn then some (v, w2 + 1 + w3 + 1 + v.length + qn) else none
      else
        let v := r5.takeWhile isUnquotedChar
        if v.isEmpty then none else some (v, w2 + 1 + w3 + v.length)
  | _ => none

/-- Match `attribute` —
`^\s*([^\s"'<>\/=]+)(?:\s*(=)\s*(?:"([^"]*)"+|'([^']*)'+|([^\s"'=<>`]+)))?`. -/
def matchAttribute (s : Str) : Option AttrMatch :=
  let w := (s.takeWhile isWS).length
  let r := s.drop w
  let name := r.takeWhile isAttrNameChar
  if name.isEmpty then none
  else
    match matchValuePart (r.drop name.length) with
    | some (v, extra) => some ⟨name, some v, w + name.length + extra⟩
    | none => some ⟨name, none, w + name.length⟩

/-- `\w` of the source regexps: `[A-Za-z0-9_]`. -/
def isWordChar (c : Char) : Bool :=
  c.isAlphanum || c = '_'

/-- The single-character marker alternatives `@`, `:`, `#` of
`dynamicArgAttribute`. -/
def markerSingle (s : Str) : Option Nat :=
  match s.head? with
  | some '@' => some 1
  | some ':' => some 1
  | some '#' => some 1
  | _ => none

/-- The directive marker of `dynamicArgAttribute`:
`(?:v-[\w-]+:|@|:|#)`; returns the matched length. -/
def matchDynMarker (s : Str) : Option Nat :=
  if "v-".data.isPrefixOf s then
    let body := (s.drop 2).takeWhile (fun c => isWordChar c || c = '-')
    if !body.isEmpty ∧ (s.drop (2 + body.length)).head? = some ':' then
      some (2 + body.length + 1)
    else markerSingle s
  else markerSingle s

/-- Index of the last occurrence of `c` in `l`. -/
def lastIdxOf (c : Char) (l : Str) : Option Nat :=
  (findIdxA (· = c) l.reverse).map (fun k => l.length - 1 - k)

/-- Match `dynamicArgAttribute` —
`^\s*((?:v-[\w-]+:|@|:|#)\[[^=]+\][^\s"'<>\/=]*)(?:\s*(=)\s*(?:"([^"]*)"+|'([^']*)'+|([^\s"'=<>`]+)))?`.
The greedy `[^=]+` followed by `\]` makes the bracket close at the last `]`
occurring before the first `=` (with at least one character inside). -/
def matchDynAttr (s : Str) : Option AttrMatch :=
  let w := (s.takeWhile isWS).length
  let r := s.drop w
  match matchDynMarker r with
  | none => none
  | some pl =>
    match r.drop pl with
    | '[' :: r2 =>
      let inner := r2.takeWhile (fun c => c ≠ '=')
      match lastIdxOf ']' inner with
      | some j =>
        if 1 ≤ j then
          let content := inner.take j
          let r3 := r2.drop (j + 1)
          let tl := r3.takeWhile isAttrNameChar
          let name := r.take pl ++ '[' :: content ++ ']' :: tl
          let base := w + pl + 1 + j + 1 + tl.length
          match matchValuePart (r3.drop tl.length) with
          | some (v, extra) => some ⟨name, some v, base + extra⟩
          | none => some ⟨name, none, base⟩
        else none
      | none => none
    | _ => none

/-- Match `startTagClose` — `^\s*(\/?)>` — returning (whether the
`unarySlash` capture is non-empty, matched length). -/
def matchStartTagClose (s : Str) : Option (Bool × Nat) :=
  let w := (s.takeWhile isWS).length
  match s.drop w with
  | '/' :: '>' :: _ => some (true, w + 2)
  | '>' :: _ => some (false, w + 1)
  | _ => none

/-- The entity table `decodingMap` with the alternation order of
`encodedAttr`/`encodedAttrWithNewLines`
(`&(?:lt|gt|quot|amp|#39);` plus `|#10|#9` when decoding newlines). -/
def entityTable (shouldDecodeNewlines : Bool) : List (Str × Char) :=
  [("&lt;".data, '<'), ("&gt;".data, '>'), ("&quot;".data, '"'),
   ("&amp;".data, '&'), ("&#39;".data, Char.ofNat 39)] ++
  (if shouldDecodeNewlines then [("&#10;".data, '\n'), ("&#9;".data, '\t')] else [])

/-- The first table entry that is a prefix of `s`. -/
def findEntity (tbl : List (Str × Char)) (s : Str) : Option (Nat × Char) :=
  match tbl with
  | [] => none
  | (e, ch) :: rest => if e.isPrefixOf s then some (e.length, ch) else findEntity rest s

/-- Fuelled left-to-right global replace; each step consumes at least one
character, so fuel `s.length` suffices. -/
def decodeAttrF (tbl : List (Str × Char)) : Nat → Str → Str
  | 0, s => s
  | _ + 1, [] => []
  | f + 1, c :: rest =>
    match findEntity tbl (c :: rest) with
    | some (elen, ch) => ch :: decodeAttrF tbl f ((c :: rest).drop elen)
    | none => c :: decodeAttrF tbl f rest

/-- `decodeAttr` (src/compiler/parser/html-parser.js, lines 71-74). -/
def decodeAttr (shouldDecodeNewlines : Bool) (v : Str) : Str :=
  decodeAttrF (entityTable shouldDecodeNewlines) v.length v

/-- `isPlainTextElement`: `makeMap('script,style,textarea', true)` (the
`true` makes the lookup lower-case its argument). -/
def isPlainTextElement (t : Str) : Bool :=
  toLowerS t = "script".data || toLowerS t = "style".data ||
  toLowerS t = "textarea".data

/-- `isIgnoreNewlineTag`: `makeMap('pre,textarea', true)`. -/
def isIgnoreNewlineTag (t : Str) : Bool :=
  toLowerS t = "pre".data || toLowerS t = "textarea".data

/-- `shouldIgnoreFirstNewline(tag, html)`. -/
def shouldIgnoreFirstNewline (tag : Str) (html : Str) : Bool :=
  isIgnoreNewlineTag tag && html.head? = some '\n'

/-- The `parseHTML` options the scanner consults.  The callbacks
(`start`/`end`/`chars`/`comment`/`warn`) are modelled as always installed
and recorded as events; `isNonPhrasingTag` (imported from
web/compiler/util, not part of the sources) is a boundary predicate
supplied here like the other tag predicates. -/
structure Opts where
  expectHTML : Bool
  isUnaryTag : Str → Bool
  canBeLeftOpenTag : Str → Bool
  isNonPhrasingTag : Str → Bool
  shouldKeepComment : Bool
  shouldDecodeNewlines : Bool
  shouldDecodeNewlinesForHref : Bool

/-- An entry of the open-element stack.  The Lean list keeps the top of
the JS array at its head. -/
structure Entry where
  tag : Str
  lowerCasedTag : Str
  attrs : List (Str × Str)
deriving DecidableEq, Repr

/-- The callback events (source positions, a dev-time diagnostic aid, are
not recorded). -/
inductive Ev where
  | start (tag : Str) (attrs : List (Str × Str)) (unary : Bool)
  | endT (tag : Str)
  | chars (text : Str)
  | comment (text : Str)
  | warnNoMatchingEnd (tag : Str)
  | warnMalformed (text : Str)
deriving DecidableEq, Repr

/-- The scanner state outside the cursor: open-element stack, `lastTag`,
and the emitted events. -/
structure MSt where
  stack : List Entry
  lastTag : Option Str
  evs : List Ev
deriving DecidableEq, Repr

/-- The full scanner state: `pos` is `index`, the number of characters of
the original input already consumed (the remaining `html` is always
`orig.drop pos`, which `advance` maintains). -/
structure PSt where
  pos : Nat
  m : MSt
deriving DecidableEq, Repr

/-- Append an event. -/
def emit (e : Ev) (m : MSt) : MSt :=
  { m with evs := m.evs ++ [e] }

/-- The events of the closing loop of `parseEndTag`, top of stack first:
each closed entry gets the `has no matching end tag` diagnostic when it
sits above the matched entry (`i > pos`) or when no tag name was given
(`!tagName`, the `warnAll` flag), followed by its `end` event. -/
def closeEvs : List Entry → Bool → List Ev
  | [], _ => []
  | [e], warnAll =>
    (if warnAll then [Ev.warnNoMatchingEnd e.tag] else []) ++ [Ev.endT e.tag]
  | e :: rest, warnAll =>
    Ev.warnNoMatchingEnd e.tag :: Ev.endT e.tag :: closeEvs rest warnAll

/-- Index (from the top = list head) of the closest open element matching
the lower-cased tag name. -/
def findMatchIdx (stack : List Entry) (lower : Str) : Option Nat :=
  findIdxA (fun e => e.lowerCasedTag = lower) stack

/-- `parseEndTag` (src/compiler/parser/html-parser.js, lines 287-337).
With a tag name: search the stack from the top for a case-insensitive
match; when found, close every element above and including it in top-down
order (diagnosing each one that had no matching end tag) and truncate the
stack; when not found, leave the stack alone except for the permissive
bare `</br>` / `</p>` handling.  Without a tag name (`pos = 0`): close and
diagnose everything. -/
def parseEndTag (tagName : Option Str) (m : MSt) : MSt :=
  match tagName with
  | some t =>
    let lower := toLowerS t
    match findMatchIdx m.stack lower with
    | some j =>
      let rest := m.stack.drop (j + 1)
      { stack := rest,
        lastTag := rest.head?.map (fun e => e.tag),
        evs := m.evs ++ closeEvs (m.stack.take (j + 1)) false }
    | none =>
      if lower = "br".data then
        { m with evs := m.evs ++ [Ev.start t [] true] }
      else if lower = "p".data then
        { m with evs := m.evs ++ [Ev.start t [] false, Ev.endT t] }
      else m
  | none =>
    { stack := [],
      lastTag := none,
      evs := m.evs ++ closeEvs m.stack true }

/-- The result of `parseStartTag`'s match object. -/
structure StartTagMatch where
  tagName : Str
  attrs : List AttrMatch
  unarySlash : Bool
deriving DecidableEq, Repr

/-- The attribute loop of `parseStartTag`:
`while (!(end = html.match(startTagClose)) && (attr = html.match(dynamicArgAttribute) || html.match(attribute)))`.
Every attribute match consumes at least one character, so fuel
`orig.length + 1` bounds the iterations; returns (the `startTagClose`
match if one ended the loop, collected attributes, cursor). -/
def stAttrLoop (orig : Str) : Nat → Nat → List AttrMatch →
    Option (Bool × Nat) × List AttrMatch × Nat
  | 0, pos, acc => (none, acc, pos)
  | f + 1, pos, acc =>
    let html := orig.drop pos
    match matchStartTagClose html with
    | some e => (some e, acc, pos)
    | none =>
      match matchDynAttr html <|> matchAttribute html with
      | some a => stAttrLoop orig f (pos + a.len) (acc ++ [a])
      | none => (none, acc, pos)

/-- `parseStartTag` (src/compiler/parser/html-parser.js, lines 219-242).
Returns the match (if the start tag closes) and the new cursor — the
source advances `html`/`index` while scanning, so a failed parse can still
move the cursor. -/
def parseStartTag (orig : Str) (pos : Nat) : Option StartTagMatch × Nat :=
  match matchStartTagOpen (orig.drop pos) with
  | none => (none, pos)
  | some (name, l) =>
    let p1 := pos + l
    let r := stAttrLoop orig (orig.length + 1) p1 []
    match r.1 with
    | some (slash, clen) =>
      (some { tagName := name, attrs := r.2.1, unarySlash := slash }, r.2.2 + clen)
    | none => (none, r.2.2)

/-- `handleStartTag` (src/compiler/parser/html-parser.js, lines 244-285):
the `expectHTML` auto-closing (`</p>` before a non-phrasing element, and a
repeated can-be-left-open tag — note the second test reads `lastTag` after
the first may have changed it), the unary determination, attribute-value
decoding, the stack push for non-unary tags, and the `start` event. -/
def handleStartTag (o : Opts) (mt : StartTagMatch) (m : MSt) : MSt :=
  let tagName := mt.tagName
  let m1 :=
    if o.expectHTML then
      let mA := if m.lastTag = some ['p'] ∧ o.isNonPhrasingTag tagName
        then parseEndTag (some ['p']) m else m
      if o.canBeLeftOpenTag tagName ∧ mA.lastTag = some tagName
        then parseEndTag (some tagName) mA else mA
    else m
  let unary := o.isUnaryTag tagName || mt.unarySlash
  let attrs := mt.attrs.map (fun a =>
    let value := a.value.getD []
    let sdn := if tagName = ['a'] ∧ a.name = "href".data
      then o.shouldDecodeNewlinesForHref else o.shouldDecodeNewlines
    (a.name, decodeAttr sdn value))
  let m2 :=
    if !unary then
      { m1 with
        stack := { tag := tagName, lowerCasedTag := toLowerS tagName,
                   attrs := attrs } :: m1.stack,
        lastTag := some tagName }
    else m1
  emit (Ev.start tagName attrs unary) m2

/-- The guard of the forgiving-text loop: whether the remaining text now
starts a recognizable construct
(`endTag.test || startTagOpen.test || comment.test || conditionalComment.test`). -/
def isRecognizable (rest : Str) : Bool :=
  (matchEndTag rest).isSome || (matchStartTagOpen rest).isSome ||
  isCommentStart rest || isConditionalStart rest

/-- The `while` loop advancing `textEnd` past literal `<` characters
(src/compiler/parser/html-parser.js, lines 148-159): while the tail at
`textEnd` is not a recognizable construct, jump to the next `<` (from
offset 1); stop when there is none.  Each iteration moves `textEnd` by at
least one, so fuel `html.length + 1` suffices. -/
def textSkipF (html : Str) : Nat → Nat → Nat
  | 0, k => k
  | f + 1, k =>
    let rest := html.drop k
    if isRecognizable rest then k
    else
      match idxOfLtFrom1 rest with
      | none => k
      | some n => textSkipF html f (k + n)

/-- The final `textEnd` produced by the forgiving-text loop. -/
def textSkip (html : Str) (k : Nat) : Nat :=
  textSkipF html (html.length + 1) k

/-- Match `(</stackedTag[^>]*>)` (the second group of `reStackedTag`,
case-insensitive; `stackedTag` is already lower-cased) at the head of `s`;
returns the matched end-tag length. -/
def matchStackedEnd (lowerTag : Str) (s : Str) : Option Nat :=
  match s with
  | '<' :: '/' :: r =>
    if toLowerS (r.take lowerTag.length) = lowerTag then
      let r2 := r.drop lowerTag.length
      let k := (r2.takeWhile (fun c => c ≠ '>')).length
      if (r2.drop k).head? = some '>' then some (2 + lowerTag.length + k + 1)
      else none
    else none
  | _ => none

/-- The earliest match of `reStackedTag` — lazy `([\s\S]*?)` then the end
tag — returning (text length, end-tag length). -/
def findStackedEnd (lowerTag : Str) : Str → Option (Nat × Nat)
  | [] => none
  | c :: rest =>
    match matchStackedEnd lowerTag (c :: rest) with
    | some l => some (0, l)
    | none => (findStackedEnd lowerTag rest).map (fun p => (p.1 + 1, p.2))

/-- Fuelled global lazy unwrap `opn([\s\S]*?)cl → $1` (used for the
`<!--…-->` and `<![CDATA[…]]>` unwrapping); each replacement consumes the
delimiters, so fuel `s.length` suffices. -/
def unwrapAllF (opn cl : Str) : Nat → Str → Str
  | 0, s => s
  | f + 1, s =>
    match findSub opn s with
    | none => s
    | some i =>
      let afterOpen := s.drop (i + opn.length)
      match findSub cl afterOpen with
      | none => s
      | some j =>
        s.take i ++ afterOpen.take j ++
          unwrapAllF opn cl f (afterOpen.drop (j + cl.length))

/-- `text.replace(/<!\--([\s\S]*?)-->/g, '$1').replace(/<!\[CDATA\[([\s\S]*?)]]>/g, '$1')`. -/
def stripCommentAndCDATA (s : Str) : Str :=
  let s1 := unwrapAllF "<!--".data "-->".data (s.length + 1) s
  unwrapAllF "<![CDATA[".data "]]>".data (s1.length + 1) s1

/-- The plain-text-element branch of the scanner loop
(src/compiler/parser/html-parser.js, lines 175-197): consume everything up
to and including the matching end tag, unwrap comments/CDATA for
non-plaintext stacked tags (dead here, kept faithfully), drop the leading
newline for `pre`/`textarea` content, emit the text, and close the stacked
tag.  When no end tag occurs the `replace` leaves `html` unchanged — the
tag is still closed via `parseEndTag`, and the no-progress exit fires. -/
def plaintextStep (orig : Str) (lt : Str) (s : PSt) : PSt :=
  let html := orig.drop s.pos
  let stackedTag := toLowerS lt
  match findStackedEnd stackedTag html with
  | some (i, el) =>
    let text0 := html.take i
    let text1 :=
      if !isPlainTextElement stackedTag ∧ stackedTag ≠ "noscript".data
      then stripCommentAndCDATA text0 else text0
    let text2 := if shouldIgnoreFirstNewline stackedTag text1 then text1.drop 1 else text1
    let m1 := emit (Ev.chars text2) s.m
    { pos := s.pos + (i + el), m := parseEndTag (some stackedTag) m1 }
  | none =>
    { pos := s.pos, m := parseEndTag (some stackedTag) s.m }

/-- The comment branch: on `^<!\--`, consume through `-->` and emit the
comment when comments are kept; without a terminator, fall through. -/
def tryComment (orig : Str) (o : Opts) (s : PSt) : Option PSt :=
  let html := orig.drop s.pos
  if isCommentStart html then
    match findSub "-->".data html with
    | some ce =>
      some { pos := s.pos + (ce + 3),
             m := if o.shouldKeepComment
               then emit (Ev.comment (substringJS 4 ce html)) s.m else s.m }
    | none => none
  else none

/-- The conditional-comment branch: on `^<!\[`, consume through `]>`
(emitting nothing); without a terminator, fall through. -/
def tryConditional (orig : Str) (s : PSt) : Option PSt :=
  let html := orig.drop s.pos
  if isConditionalStart html then
    match findSub "]>".data html with
    | some ce => some { s with pos := s.pos + (ce + 2) }
    | none => none
  else none

/-- The trailing text handling of one loop iteration
(src/compiler/parser/html-parser.js, lines 145-173): `textEnd` is the
stale `<`-index computed at the top of the iteration, `pos1` the cursor
after a possibly-failed `parseStartTag` (which advances while scanning). -/
def textPhase (orig : Str) (pos1 : Nat) (textEnd : Option Nat) (m : MSt) : PSt :=
  let html1 := orig.drop pos1
  let text := match textEnd with
    | some k => substringJS 0 (textSkip html1 k) html1
    | none => html1
  let m1 := if !text.isEmpty then emit (Ev.chars text) m else m
  { pos := pos1 + text.length, m := m1 }

/-- One iteration of the scanner loop outside plain-text content
(src/compiler/parser/html-parser.js, lines 92-173): when the input head is
`<`, try comment, conditional comment, doctype, end tag and start tag in
order (each falling through on an incomplete match), else treat the head
as text. -/
def normalStep (orig : Str) (o : Opts) (s : PSt) : PSt :=
  let html := orig.drop s.pos
  let textEnd := idxOfChar '<' html
  if textEnd = some 0 then
    match tryComment orig o s with
    | some s1 => s1
    | none =>
    match tryConditional orig s with
    | some s1 => s1
    | none =>
    match matchDoctype html with
    | some n => { s with pos := s.pos + n }
    | none =>
    match matchEndTag html with
    | some (name, len) =>
      { pos := s.pos + len, m := parseEndTag (some name) s.m }
    | none =>
    match parseStartTag orig s.pos with
    | (some mt, p1) =>
      let m1 := handleStartTag o mt s.m
      let p2 := if shouldIgnoreFirstNewline mt.tagName (orig.drop p1)
        then p1 + 1 else p1
      { pos := p2, m := m1 }
    | (none, p1) => textPhase orig p1 textEnd s.m
  else textPhase orig s.pos textEnd s.m

/-- One iteration of the `while (html)` loop body. -/
def stepBody (orig : Str) (o : Opts) (s : PSt) : PSt :=
  match s.m.lastTag with
  | some lt =>
    if isPlainTextElement lt then plaintextStep orig lt s else normalStep orig o s
  | none => normalStep orig o s

/-- The `html === last` exit (src/compiler/parser/html-parser.js, lines
201-207): emit the whole unconsumed remainder verbatim as text, diagnose
it as a mal-formatted tag when the open-element stack is empty, and stop
scanning. -/
def noProgressFinish (orig : Str) (s : PSt) : PSt :=
  let html := orig.drop s.pos
  { s with m := { s.m with evs := s.m.evs ++ [Ev.chars html] ++
      (if s.m.stack.isEmpty then [Ev.warnMalformed html] else []) } }

/-- The fuelled scanner loop.  Every iteration that recurses has strictly
advanced the cursor (otherwise the no-progress exit fires), so any fuel
exceeding the number of unconsumed characters yields the loop's true
result (`parseLoopF_fuel` below). -/
def parseLoopF (orig : Str) (o : Opts) : Nat → PSt → PSt
  | 0, s => s
  | f + 1, s =>
    if orig.length ≤ s.pos then s
    else
      let s' := stepBody orig o s
      if s'.pos = s.pos then noProgressFinish orig s'
      else parseLoopF orig o f s'

/-- `parseHTML(html, options)` (src/compiler/parser/html-parser.js, lines
78-213): run the scanner loop from the start and then clean up any
remaining open tags with `parseEndTag()`. -/
def parseHTML (orig : Str) (o : Opts) : PSt :=
  let s := parseLoopF orig o (orig.length + 1)
    { pos := 0, m := { stack := [], lastTag := none, evs := [] } }
  { s with m := parseEndTag none s.m }

end HP

/-!  ## Helper lemmas -/

namespace DEP

theorem sortById_perm (l : List Nat) : List.Perm (sortById l) l :=
  List.perm_insertionSort _ l

theorem sortById_sorted (l : List Nat) : (sortById l).Sorted (· ≤ ·) :=
  List.sorted_insertionSort _ l

theorem notifyOrder_perm (async : Bool) (subs : List Nat) :
    List.Perm (notifyOrder async subs) subs := by
  unfold notifyOrder
  cases async with
  | false => simpa using sortById_perm subs
  | true => simp

theorem notifyOrder_count (async : Bool) (subs : List Nat) (w : Nat) :
    (notifyOrder async subs).count w = subs.count w :=
  (notifyOrder_perm async subs).count_eq w

end DEP

namespace RX

theorem cleanupDeps_tstack (w : Nat) (s : State) : (cleanupDeps w s).tstack = s.tstack := rfl

theorem cleanupDeps_newDeps (w : Nat) (s : State) : (cleanupDeps w s).newDeps = [] := rfl

theorem popTarget_tstack (s : State) : (popTarget s).tstack = s.tstack.tail := rfl

end RX

/-!  ## Claim theorems -/

/-- C4: `compileToFunctions` called a second time with an identical
delimiters configuration and identical template returns the identical
cached result object (the model's identity id) and leaves the closure
state untouched (in particular the underlying `compile` is not invoked
again); `compile` runs — incrementing `compileCount` — only on a cache
miss, and a hit returns the cached object without recompiling. -/
theorem claim_c4_compile_cache (d : Option (List Char)) (t : List Char) (s : CF.CState) :
    (CF.compileToFunctions d t (CF.compileToFunctions d t s).2).1 =
      (CF.compileToFunctions d t s).1
    ∧ (CF.compileToFunctions d t (CF.compileToFunctions d t s).2).2 =
      (CF.compileToFunctions d t s).2
    ∧ (CF.lookupA s.cache (CF.cacheKey d t) = none →
        (CF.compileToFunctions d t s).2.compileCount = s.compileCount + 1)
    ∧ (∀ r, CF.lookupA s.cache (CF.cacheKey d t) = some r →
        CF.compileToFunctions d t s = (r, s)) := by
  cases h : CF.lookupA s.cache (CF.cacheKey d t) with
  | some r =>
    refine ⟨?_, ?_, ?_, ?_⟩ <;> simp [CF.compileToFunctions, h]
  | none =>
    have hhit : CF.lookupA ((CF.cacheKey d t, s.nextId) :: s.cache) (CF.cacheKey d t)
        = some s.nextId := by
      simp [CF.lookupA]
    refine ⟨?_, ?_, ?_, ?_⟩ <;> simp [CF.compileToFunctions, h, hhit]

/-- Witness for C4 at a fresh cache: the first call compiles (count 0 → 1)
and the second call returns the same result object and the same state. -/
theorem claim_c4_witness :
    ((CF.compileToFunctions none "<div/>".data
        (CF.compileToFunctions none "<div/>".data ⟨[], 0, 0⟩).2).1 =
      (CF.compileToFunctions none "<div/>".data ⟨[], 0, 0⟩).1)
    ∧ (CF.compileToFunctions none "<div/>".data ⟨[], 0, 0⟩).2.compileCount = 0 + 1 := by
  have h := claim_c4_compile_cache none "<div/>".data ⟨[], 0, 0⟩
  exact ⟨h.1, h.2.2.1 rfl⟩

/-- C9: when the key is already visible to the `in` operator on the target
and is not a property of `Object.prototype`, `set` performs a plain
assignment, returns the value, warns nothing and does not notify the
Observer's whole-object dep — even on a Vue instance or a root `$data`
object, since the instance/root restriction is checked only after the
existing-key branch. -/
theorem claim_c9_set_existing_key (t : SETM.TObj) (k : List Char) (v : VJ.JVal)
    (h1 : t.isArray = false) (h2 : k ∈ t.present) (h3 : k ∉ SETM.protoKeys) :
    SETM.vueSet t k v =
      { t := SETM.setField t k v, ret := v, warned := false, obNotified := false } := by
  unfold SETM.vueSet
  rw [if_neg (by simp [h1]), if_pos ⟨h2, h3⟩]

/-- Witness for C9: an existing key on a root-data Vue-instance target is
assigned without a warning and without an ob-dep notification. -/
theorem claim_c9_witness :
    SETM.vueSet
      { isArray := false, fields := [("a".data, VJ.JVal.num 1)],
        present := ["a".data], isVue := true, obVmCount := some 1 }
      "a".data (VJ.JVal.num 2) =
      { t := SETM.setField
          { isArray := false, fields := [("a".data, VJ.JVal.num 1)],
            present := ["a".data], isVue := true, obVmCount := some 1 }
          "a".data (VJ.JVal.num 2),
        ret := VJ.JVal.num 2, warned := false, obNotified := false } :=
  claim_c9_set_existing_key _ _ _ rfl (by decide) (by decide)

/-- C10: reading a reactive property while no watcher is active (the
derived `Dep.target` is `null`) returns the value and leaves the whole
bookkeeping state — every dep's subscriber list, the watcher dep sets and
the target stack — untouched; `Dep.depend` with no active target is a
no-op. -/
theorem claim_c10_read_no_target (hasGetter : Bool) (ogv pval : VJ.JVal)
    (depId : Nat) (childObDep : Option Nat) (isArr : Bool) (elemDeps : List Nat)
    (s : RX.State) (h : RX.depTarget s = none) :
    RX.reactiveGetter hasGetter ogv pval depId childObDep isArr elemDeps s =
      ((if hasGetter then ogv else pval), s)
    ∧ (∀ d, RX.depend d s = s) := by
  constructor
  · unfold RX.reactiveGetter
    rw [h]
    rfl
  · intro d
    unfold RX.depend
    rw [h]

/-- Witness for C10 on an empty target stack. -/
theorem claim_c10_witness :
    RX.reactiveGetter true VJ.JVal.nul VJ.JVal.undef 0 (some 4) true [9]
      { tstack := [], subs := fun _ => [], deps := [], newDeps := [] } =
      (VJ.JVal.nul, { tstack := [], subs := fun _ => [], deps := [], newDeps := [] })
    ∧ (∀ d, RX.depend d { tstack := [], subs := fun _ => [], deps := [], newDeps := [] } =
        { tstack := [], subs := fun _ => [], deps := [], newDeps := [] }) :=
  claim_c10_read_no_target true VJ.JVal.nul VJ.JVal.undef 0 (some 4) true [9] _ rfl

/-- C7: `Dep.notify` invokes `update()` on exactly the snapshot taken when
`notify` began — the live subscriber list in the original order when
`config.async` holds, its ascending-id sort otherwise — so subscribers
added while the round runs (the `effect` of each update) are never invoked
in that round. -/
theorem claim_c7_notify_snapshot (async : Bool) (subs : List Nat)
    (effect : Nat → List Nat) :
    (DEP.notifyRound async subs effect).1 = DEP.notifyOrder async subs
    ∧ (async = true → (DEP.notifyRound async subs effect).1 = subs)
    ∧ (async = false → (DEP.notifyRound async subs effect).1.Sorted (· ≤ ·))
    ∧ List.Perm (DEP.notifyRound async subs effect).1 subs
    ∧ (∀ w, w ∉ subs → w ∉ (DEP.notifyRound async subs effect).1) := by
  refine ⟨rfl, ?_, ?_, ?_, ?_⟩
  · intro ha
    simp [DEP.notifyRound, DEP.notifyOrder, ha]
  · intro ha
    simpa [DEP.notifyRound, DEP.notifyOrder, ha] using DEP.sortById_sorted subs
  · exact DEP.notifyOrder_perm async subs
  · intro w hw hmem
    exact hw ((DEP.notifyOrder_perm async subs).mem_iff.mp hmem)

/-- Witness for C7 in synchronous mode: the snapshot `[5, 2]` is invoked
sorted as `[2, 5]`, and the subscriber `9` added by the updates is not
invoked this round. -/
theorem claim_c7_witness :
    (DEP.notifyRound false [5, 2] (fun _ => [9])).1 = DEP.notifyOrder false [5, 2]
    ∧ (9 : Nat) ∉ (DEP.notifyRound false [5, 2] (fun _ => [9])).1 := by
  have h := claim_c7_notify_snapshot false [5, 2] (fun _ => [9])
  exact ⟨h.1, h.2.2.2.2 9 (by decide)⟩

/-- C8 counterexample: for a configurable property that has an
author-defined getter and no setter, `defineReactive` still calls
`Object.defineProperty` — the claim's "the property's original accessors
are not replaced" is false: the result is `some` installed accessor pair,
not an untouched property. -/
theorem claim_c8_counterexample :
    (DR.defineReactive (fun _ => ⟨false, false, false, false, false⟩) true
        ⟨true, true, false⟩ VJ.JVal.undef none false).isSome = true := rfl

/-- C8 (amended): a configurable property with an author getter and no
setter is still wrapped — its accessors are replaced by a reactive pair
that keeps the original getter — but it stays effectively read-only: for
every written value the installed setter stores nothing and fires no
notification. -/
theorem claim_c8_getter_only_read_only (h : VJ.Heap) (so async shallow : Bool)
    (d : DR.PropDesc) (objVal : VJ.JVal) (valArg : Option VJ.JVal)
    (ogv newVal : VJ.JVal) (p : DR.RProp)
    (hc : d.configurable = true) (hg : d.hasGetter = true) (hs : d.hasSetter = false) :
    (∃ i, DR.defineReactive h so d objVal valArg shallow = some i
      ∧ i.hasGetter = true ∧ i.hasSetter = false)
    ∧ DR.reactiveSetter h so async true false shallow ogv p newVal = (p, []) := by
  constructor
  · unfold DR.defineReactive
    rw [if_neg (by simp [hc])]
    exact ⟨_, rfl, by simpa using hg, by simpa using hs⟩
  · unfold DR.reactiveSetter
    by_cases hch : DR.noChange newVal (if true = true then ogv else p.val) = true
    · rw [if_pos hch]
    · rw [if_neg hch, if_pos (by simp)]

/-- Witness for C8's amended statement at a concrete getter-only
descriptor and a concrete write. -/
theorem claim_c8_witness :
    (∃ i, DR.defineReactive (fun _ => ⟨false, false, false, false, false⟩) true
        ⟨true, true, false⟩ VJ.JVal.undef none false = some i
      ∧ i.hasGetter = true ∧ i.hasSetter = false)
    ∧ DR.reactiveSetter (fun _ => ⟨false, false, false, false, false⟩) true true
        true false false (VJ.JVal.num 1)
        { val := VJ.JVal.undef, childOb := false, subs := [3] }
        (VJ.JVal.num 2) =
      ({ val := VJ.JVal.undef, childOb := false, subs := [3] }, []) :=
  claim_c8_getter_only_read_only _ true true false ⟨true, true, false⟩
    VJ.JVal.undef none (VJ.JVal.num 1) (VJ.JVal.num 2) _ rfl rfl rfl

/-- C1: for a plain data property installed by `defineReactive` (no author
accessors, deep observation), a write that is identical under the NaN-safe
identity test stores nothing and fires no notification; a differing write
stores the new value, observes it exactly when `observe` succeeds on it
(in particular when it is an observable object), keeps the subscriber list
intact and notifies the dep once, reaching every currently-subscribed
watcher exactly once (and nobody else).  The NaN-over-NaN write counts as
unchanged. -/
theorem claim_c1_reactive_write (h : VJ.Heap) (so async : Bool)
    (p : DR.RProp) (newVal : VJ.JVal) (hnd : p.subs.Nodup) :
    (DR.noChange newVal p.val = true →
      DR.reactiveSetter h so async false false false VJ.JVal.undef p newVal = (p, []))
    ∧ (DR.noChange newVal p.val = false →
      (DR.reactiveSetter h so async false false false VJ.JVal.undef p newVal).1.val = newVal
      ∧ (DR.reactiveSetter h so async false false false VJ.JVal.undef p newVal).1.childOb
          = VJ.observeSucceeds h so newVal
      ∧ (DR.reactiveSetter h so async false false false VJ.JVal.undef p newVal).1.subs
          = p.subs
      ∧ (∀ w ∈ p.subs,
          (DR.reactiveSetter h so async false false false VJ.JVal.undef p newVal).2.count w = 1)
      ∧ (∀ w, w ∉ p.subs →
          (DR.reactiveSetter h so async false false false VJ.JVal.undef p newVal).2.count w = 0))
    ∧ DR.noChange VJ.JVal.nan VJ.JVal.nan = true := by
  refine ⟨?_, ?_, by decide⟩
  · intro hch
    unfold DR.reactiveSetter
    rw [if_pos (by simpa using hch)]
  · intro hch
    have hs : DR.reactiveSetter h so async false false false VJ.JVal.undef p newVal =
        ({ val := newVal, childOb := VJ.observeSucceeds h so newVal, subs := p.subs },
         DEP.notifyOrder async p.subs) := by
      unfold DR.reactiveSetter
      rw [if_neg (by simpa using hch)]
      simp
    refine ⟨by rw [hs], by rw [hs], by rw [hs], ?_, ?_⟩
    · intro w hw
      rw [hs]
      simpa [DEP.notifyOrder_count] using List.count_eq_one_of_mem hnd hw
    · intro w hw
      rw [hs]
      simpa [DEP.notifyOrder_count] using List.count_eq_zero.mpr hw

/-- Witness for C1: writing `2` over `1` on a property with subscribers
`[3, 7]` stores the value and notifies both exactly once; the NaN clause
instantiates as well. -/
theorem claim_c1_witness :
    (DR.reactiveSetter (fun _ => ⟨true, true, false, false, false⟩) true true
        false false false VJ.JVal.undef
        { val := VJ.JVal.num 1, childOb := false, subs := [3, 7] }
        (VJ.JVal.num 2)).1.val = VJ.JVal.num 2
    ∧ (∀ w ∈ ([3, 7] : List Nat),
        (DR.reactiveSetter (fun _ => ⟨true, true, false, false, false⟩) true true
          false false false VJ.JVal.undef
          { val := VJ.JVal.num 1, childOb := false, subs := [3, 7] }
          (VJ.JVal.num 2)).2.count w = 1) := by
  have h := claim_c1_reactive_write (fun _ => ⟨true, true, false, false, false⟩)
    true true { val := VJ.JVal.num 1, childOb := false, subs := [3, 7] }
    (VJ.JVal.num 2) (by decide)
  have h2 := h.2.1 (by decide)
  exact ⟨h2.1, h2.2.2.2.1⟩

/-- C3: `Watcher.get` pushes the watcher onto the global target stack (so
it is the active `Dep.target` while the getter runs) and on every exit
path — a returning getter or a throwing one — pops the stack back to the
previous active watcher and reconciles the dependency set via
`cleanupDeps`; a throw from a user watcher's getter is funnelled to the
error handler, while for a non-user watcher it propagates to the caller.
The hypotheses say only that the getter and the deep-watch traversal leave
the target stack as they found it (nested evaluations push and pop in
pairs). -/
theorem claim_c3_watcher_get (w : Nat) (user deep : Bool)
    (getter : RX.State → RX.State × Except Unit VJ.JVal)
    (tr : VJ.JVal → RX.State → RX.State) (s : RX.State)
    (hg : (getter (RX.pushTarget (some w) s)).1.tstack =
      (RX.pushTarget (some w) s).tstack)
    (htr : ∀ v s2, (tr v s2).tstack = s2.tstack) :
    RX.depTarget (RX.pushTarget (some w) s) = some w
    ∧ (RX.watcherGet w user deep getter tr s).1 =
        RX.cleanupDeps w (RX.popTarget
          (match (getter (RX.pushTarget (some w) s)).2 with
           | Except.ok v =>
             if deep then tr v (getter (RX.pushTarget (some w) s)).1
             else (getter (RX.pushTarget (some w) s)).1
           | Except.error _ => (getter (RX.pushTarget (some w) s)).1))
    ∧ (RX.watcherGet w user deep getter tr s).1.tstack = s.tstack
    ∧ RX.depTarget (RX.watcherGet w user deep getter tr s).1 = RX.depTarget s
    ∧ (RX.watcherGet w user deep getter tr s).1.newDeps = []
    ∧ (∀ v, (getter (RX.pushTarget (some w) s)).2 = Except.ok v →
        (RX.watcherGet w user deep getter tr s).2 = RX.GetOutcome.ok v)
    ∧ (∀ e, (getter (RX.pushTarget (some w) s)).2 = Except.error e →
        (RX.watcherGet w user deep getter tr s).2 =
          (if user then RX.GetOutcome.handled else RX.GetOutcome.propagated)) := by
  cases hr : (getter (RX.pushTarget (some w) s)).2 with
  | ok v =>
    have h3 : (if deep then tr v (getter (RX.pushTarget (some w) s)).1
        else (getter (RX.pushTarget (some w) s)).1).tstack = some w :: s.tstack := by
      cases deep
      · simpa using hg
      · simpa [htr] using hg
    have hres : RX.watcherGet w user deep getter tr s =
        (RX.cleanupDeps w (RX.popTarget
          (if deep then tr v (getter (RX.pushTarget (some w) s)).1
           else (getter (RX.pushTarget (some w) s)).1)), RX.GetOutcome.ok v) := by
      simp only [RX.watcherGet, hr]
    have htst : (RX.watcherGet w user deep getter tr s).1.tstack = s.tstack := by
      rw [hres]
      show (RX.cleanupDeps w _).tstack = s.tstack
      rw [RX.cleanupDeps_tstack, RX.popTarget_tstack, h3]
      rfl
    refine ⟨rfl, ?_, htst, ?_, ?_, ?_, ?_⟩
    · simp only [hr]
      rw [hres]
    · unfold RX.depTarget
      rw [htst]
    · rw [hres]
      exact RX.cleanupDeps_newDeps w _
    · intro v' hv'
      cases hv'
      rw [hres]
    · intro e he
      cases he
  | error e =>
    have h3 : (getter (RX.pushTarget (some w) s)).1.tstack = some w :: s.tstack := by
      simpa using hg
    have hres : RX.watcherGet w user deep getter tr s =
        (RX.cleanupDeps w (RX.popTarget (getter (RX.pushTarget (some w) s)).1),
         if user then RX.GetOutcome.handled else RX.GetOutcome.propagated) := by
      cases user <;> simp [RX.watcherGet, hr]
    have htst : (RX.watcherGet w user deep getter tr s).1.tstack = s.tstack := by
      rw [hres]
      show (RX.cleanupDeps w _).tstack = s.tstack
      rw [RX.cleanupDeps_tstack, RX.popTarget_tstack, h3]
      rfl
    refine ⟨rfl, ?_, htst, ?_, ?_, ?_, ?_⟩
    · simp only [hr]
      rw [hres]
    · unfold RX.depTarget
      rw [htst]
    · rw [hres]
      exact RX.cleanupDeps_newDeps w _
    · intro v' hv'
      cases hv'
    · intro e' he'
      cases he'
      rw [hres]

/-- Witness for C3: a non-user watcher whose getter throws still restores
the target stack and reports a propagated error. -/
theorem claim_c3_witness :
    (RX.watcherGet 5 false false (fun s => (s, Except.error ()))
        (fun _ s => s)
        { tstack := [some 1], subs := fun _ => [], deps := [], newDeps := [] }).1.tstack
      = [some 1]
    ∧ (RX.watcherGet 5 false false (fun s => (s, Except.error ()))
        (fun _ s => s)
        { tstack := [some 1], subs := fun _ => [], deps := [], newDeps := [] }).2
      = RX.GetOutcome.propagated := by
  have h := claim_c3_watcher_get 5 false false (fun s => (s, Except.error ()))
    (fun _ s => s)
    { tstack := [some 1], subs := fun _ => [], deps := [], newDeps := [] }
    rfl (fun _ _ => rfl)
  exact ⟨h.2.2.1, by simpa using h.2.2.2.2.2.2 () rfl⟩

namespace RX

theorem removeFirst_count_self (w : Nat) (l : List Nat) :
    (removeFirst w l).count w = l.count w - 1 := by
  induction l with
  | nil => rfl
  | cons x xs ih =>
    by_cases hx : x = w
    · subst hx
      simp [removeFirst, List.count_cons]
    · simp [removeFirst, hx, List.count_cons, ih]

theorem addDep_inv (w r : Nat) (s : State)
    (h1 : s.newDeps.Nodup)
    (h2 : ∀ d, (s.subs d).count w = if d ∈ s.deps ∨ d ∈ s.newDeps then 1 else 0) :
    (addDep w r s).deps = s.deps ∧ (addDep w r s).tstack = s.tstack
    ∧ (addDep w r s).newDeps.Nodup
    ∧ (∀ d, ((addDep w r s).subs d).count w =
        if d ∈ s.deps ∨ d ∈ (addDep w r s).newDeps then 1 else 0)
    ∧ (∀ d ∈ (addDep w r s).newDeps, d ∈ s.newDeps ∨ d = r) := by
  by_cases hn : r ∈ s.newDeps
  · have he : addDep w r s = s := by simp [addDep, hn]
    rw [he]
    exact ⟨rfl, rfl, h1, h2, fun d hd => Or.inl hd⟩
  · by_cases hd : r ∈ s.deps
    · have he : addDep w r s = { s with newDeps := s.newDeps ++ [r] } := by
        simp [addDep, hn, hd]
      rw [he]
      refine ⟨rfl, rfl, ?_, ?_, ?_⟩
      · simp [List.nodup_append, h1, hn]
      · intro d
        rw [h2 d]
        by_cases hdr : d = r
        · subst hdr
          simp [hd]
        · simp [List.mem_append, hdr]
      · intro d hmem
        rcases List.mem_append.mp hmem with h | h
        · exact Or.inl h
        · exact Or.inr (List.mem_singleton.mp h)
    · have he : addDep w r s =
          { s with newDeps := s.newDeps ++ [r],
                   subs := fun x => if x = r then s.subs x ++ [w] else s.subs x } := by
        simp [addDep, hn, hd, addSub]
      rw [he]
      refine ⟨rfl, rfl, ?_, ?_, ?_⟩
      · simp [List.nodup_append, h1, hn]
      · intro d
        by_cases hdr : d = r
        · subst hdr
          have h0 : (s.subs d).count w = 0 := by
            rw [h2 d]
            simp [hd, hn]
          simp [List.count_append, h0]
        · simp only [if_neg hdr]
          rw [h2 d]
          simp [List.mem_append, hdr]
      · intro d hmem
        rcases List.mem_append.mp hmem with h | h
        · exact Or.inl h
        · exact Or.inr (List.mem_singleton.mp h)

theorem addDep_fold_inv (w : Nat) (reads : List Nat) :
    ∀ s : State,
      s.newDeps.Nodup →
      (∀ d, (s.subs d).count w = if d ∈ s.deps ∨ d ∈ s.newDeps then 1 else 0) →
      (reads.foldl (fun s d => addDep w d s) s).deps = s.deps
      ∧ (reads.foldl (fun s d => addDep w d s) s).newDeps.Nodup
      ∧ (∀ d, ((reads.foldl (fun s d => addDep w d s) s).subs d).count w =
          if d ∈ s.deps ∨ d ∈ (reads.foldl (fun s d => addDep w d s) s).newDeps
          then 1 else 0)
      ∧ (∀ d ∈ (reads.foldl (fun s d => addDep w d s) s).newDeps,
          d ∈ s.newDeps ∨ d ∈ reads) := by
  induction reads with
  | nil =>
    intro s hnd hcnt
    exact ⟨rfl, hnd, hcnt, fun d hd => Or.inl hd⟩
  | cons r rs ih =>
    intro s hnd hcnt
    obtain ⟨sd, _, snd, scnt, ssub⟩ := addDep_inv w r s hnd hcnt
    rw [List.foldl_cons]
    obtain ⟨fd, fnd, fcnt, fsub⟩ := ih (addDep w r s) snd (by
      intro d
      rw [scnt d, sd])
    refine ⟨by rw [fd, sd], fnd, ?_, ?_⟩
    · intro d
      rw [fcnt d, sd]
    · intro d hmem
      rcases fsub d hmem with h | h
      · rcases ssub d h with h' | h'
        · exact Or.inl h'
        · exact Or.inr (by simp [h'])
      · exact Or.inr (List.mem_cons_of_mem r h)

theorem cleanup_fold_count (w : Nat) (N : List Nat) :
    ∀ (D : List Nat) (f : Nat → List Nat), D.Nodup →
    ∀ x, ((D.foldl (fun f d => if d ∈ N then f
            else fun y => if y = d then removeFirst w (f y) else f y) f) x).count w =
      if x ∈ D ∧ x ∉ N then (f x).count w - 1 else (f x).count w := by
  intro D
  induction D with
  | nil =>
    intro f _ x
    simp
  | cons a D' ih =>
    intro f hnd x
    have hnd' : D'.Nodup := (List.nodup_cons.mp hnd).2
    have ha : a ∉ D' := (List.nodup_cons.mp hnd).1
    rw [List.foldl_cons]
    by_cases haN : a ∈ N
    · rw [if_pos haN, ih f hnd' x]
      by_cases hxa : x = a
      · subst hxa
        simp [haN, ha]
      · simp [hxa]
    · rw [if_neg haN,
        ih (fun y => if y = a then removeFirst w (f y) else f y) hnd' x]
      by_cases hxa : x = a
      · subst hxa
        simp [ha, haN, removeFirst_count_self]
      · simp [hxa]

end RX

/-- C2: starting from the between-evaluations invariant (no pending new
deps, a duplicate-free dep list, and watcher `w` subscribed exactly to its
recorded deps), after one full evaluation (`addDep` for every read, then
`cleanupDeps`) every dep's subscriber list contains the watcher at most
once, the watcher's dep list is duplicate-free with an empty pending side,
the invariant is re-established, and every dep known from the previous
round but not read this round no longer holds the watcher. -/
theorem claim_c2_dep_reconciliation (w : Nat) (reads : List Nat) (s : RX.State)
    (h0 : s.newDeps = []) (h1 : s.deps.Nodup)
    (h2 : ∀ d, (s.subs d).count w = if d ∈ s.deps then 1 else 0) :
    (RX.runEval w reads s).deps.Nodup
    ∧ (RX.runEval w reads s).newDeps = []
    ∧ (∀ d, ((RX.runEval w reads s).subs d).count w ≤ 1)
    ∧ (∀ d, ((RX.runEval w reads s).subs d).count w =
        if d ∈ (RX.runEval w reads s).deps then 1 else 0)
    ∧ (∀ d ∈ s.deps, d ∉ reads → ((RX.runEval w reads s).subs d).count w = 0) := by
  have h2' : ∀ d, (s.subs d).count w = if d ∈ s.deps ∨ d ∈ s.newDeps then 1 else 0 := by
    intro d
    rw [h2 d]
    simp [h0]
  obtain ⟨hdeps, hnodupN, hcount, hsub⟩ :=
    RX.addDep_fold_inv w reads s (by simp [h0]) h2'
  have hrun : RX.runEval w reads s =
      RX.cleanupDeps w (reads.foldl (fun s d => RX.addDep w d s) s) := rfl
  set F := reads.foldl (fun s d => RX.addDep w d s) s with hF
  have hcdeps : (RX.cleanupDeps w F).deps = F.newDeps := rfl
  have hcnew : (RX.cleanupDeps w F).newDeps = [] := rfl
  have hcsubs : ∀ x, ((RX.cleanupDeps w F).subs x).count w =
      if x ∈ F.deps ∧ x ∉ F.newDeps then (F.subs x).count w - 1
      else (F.subs x).count w := by
    intro x
    exact RX.cleanup_fold_count w F.newDeps F.deps F.subs (hdeps ▸ h1) x
  have hfinal : ∀ x, ((RX.cleanupDeps w F).subs x).count w =
      if x ∈ F.newDeps then 1 else 0 := by
    intro x
    rw [hcsubs x, hcount x, hdeps]
    by_cases hxd : x ∈ s.deps <;> by_cases hxn : x ∈ F.newDeps <;>
      simp [hxd, hxn]
  refine ⟨?_, ?_, ?_, ?_, ?_⟩
  · rw [hrun, hcdeps]
    exact hnodupN
  · rw [hrun, hcnew]
  · intro d
    rw [hrun, hfinal d]
    by_cases hd : d ∈ F.newDeps <;> simp [hd]
  · intro d
    rw [hrun, hfinal d, hcdeps]
  · intro d hds hdr
    have hdn : d ∉ F.newDeps := by
      intro hmem
      rcases hsub d hmem with h | h
      · rw [h0] at h
        cases h
      · exact hdr h
    rw [hrun, hfinal d, if_neg hdn]

/-- Witness for C2: watcher `7` previously depended on deps `1` and `2`;
an evaluation reading `[2, 3, 3]` leaves it subscribed exactly to `2` and
`3` (once each, despite the duplicate read) and unsubscribed from `1`. -/
theorem claim_c2_witness :
    ((RX.runEval 7 [2, 3, 3]
        { tstack := [], subs := fun d => if d = 1 ∨ d = 2 then [7] else [],
          deps := [1, 2], newDeps := [] }).subs 1).count 7 = 0
    ∧ (∀ d, ((RX.runEval 7 [2, 3, 3]
        { tstack := [], subs := fun d => if d = 1 ∨ d = 2 then [7] else [],
          deps := [1, 2], newDeps := [] }).subs d).count 7 ≤ 1)
    ∧ (RX.runEval 7 [2, 3, 3]
        { tstack := [], subs := fun d => if d = 1 ∨ d = 2 then [7] else [],
          deps := [1, 2], newDeps := [] }).deps.Nodup := by
  have h := claim_c2_dep_reconciliation 7 [2, 3, 3]
    { tstack := [], subs := fun d => if d = 1 ∨ d = 2 then [7] else [],
      deps := [1, 2], newDeps := [] }
    rfl (by decide) (by
      intro d
      by_cases hd1 : d = 1
      · subst hd1
        decide
      · by_cases hd2 : d = 2
        · subst hd2
          decide
        · simp [hd1, hd2])
  exact ⟨h.2.2.2.2 1 (by decide) (by decide), h.2.2.1, h.1⟩

namespace HP

theorem findIdxA_append_cons (p : α → Bool) (above : List α) (e : α) (below : List α)
    (ha : ∀ a ∈ above, p a = false) (he : p e = true) :
    findIdxA p (above ++ e :: below) = some above.length := by
  induction above with
  | nil => simp [findIdxA, he]
  | cons a rest ih =>
    have hpa : p a = false := ha a (by simp)
    simp [findIdxA, hpa, ih (fun x hx => ha x (by simp [hx]))]

theorem findIdxA_none (p : α → Bool) (l : List α) (h : ∀ a ∈ l, p a = false) :
    findIdxA p l = none := by
  induction l with
  | nil => rfl
  | cons a rest ih =>
    simp [findIdxA, h a (by simp), ih (fun x hx => h x (by simp [hx]))]

theorem closeEvs_append (above : List Entry) (e : Entry) :
    closeEvs (above ++ [e]) false =
      above.flatMap (fun a => [Ev.warnNoMatchingEnd a.tag, Ev.endT a.tag])
        ++ [Ev.endT e.tag] := by
  induction above with
  | nil => simp [closeEvs]
  | cons a rest ih =>
    cases rest with
    | nil => simp [closeEvs]
    | cons b rest' =>
      show Ev.warnNoMatchingEnd a.tag :: Ev.endT a.tag ::
          closeEvs ((b :: rest') ++ [e]) false = _
      rw [ih]
      simp

theorem take_len_append (l1 : List α) (x : α) (l2 : List α) :
    (l1 ++ x :: l2).take (l1.length + 1) = l1 ++ [x] := by
  induction l1 with
  | nil => rfl
  | cons a r ih =>
    show (a :: (r ++ x :: l2)).take (r.length + 1 + 1) = a :: (r ++ [x])
    rw [List.take_succ_cons, ih]

theorem drop_len_append (l1 : List α) (x : α) (l2 : List α) :
    (l1 ++ x :: l2).drop (l1.length + 1) = l2 := by
  induction l1 with
  | nil => rfl
  | cons a r ih =>
    show (a :: (r ++ x :: l2)).drop (r.length + 1 + 1) = l2
    rw [List.drop_succ_cons, ih]

end HP

/-- C6: for an end tag with a name, `parseEndTag` searches the open stack
from the top for a case-insensitive match; when one exists, every entry
from the top down to and including the match is closed in that order, the
entries strictly above the match each drawing a "has no matching end tag"
diagnostic while the matched entry closes silently, and the stack keeps
only what lay below the match; when none exists the stack is untouched and
only a bare `</br>` (a unary `br` start event) or `</p>` (a `p` start plus
end event) produces output. -/
theorem claim_c6_end_tag_resolution (t : HP.Str) (m : HP.MSt) :
    (∀ above e below, m.stack = above ++ e :: below →
      e.lowerCasedTag = HP.toLowerS t →
      (∀ a ∈ above, a.lowerCasedTag ≠ HP.toLowerS t) →
      HP.parseEndTag (some t) m =
        { stack := below,
          lastTag := below.head?.map (fun x => x.tag),
          evs := m.evs
            ++ above.flatMap (fun a => [HP.Ev.warnNoMatchingEnd a.tag, HP.Ev.endT a.tag])
            ++ [HP.Ev.endT e.tag] })
    ∧ ((∀ a ∈ m.stack, a.lowerCasedTag ≠ HP.toLowerS t) →
      HP.parseEndTag (some t) m =
        (if HP.toLowerS t = "br".data then
           { m with evs := m.evs ++ [HP.Ev.start t [] true] }
         else if HP.toLowerS t = "p".data then
           { m with evs := m.evs ++ [HP.Ev.start t [] false, HP.Ev.endT t] }
         else m)) := by
  constructor
  · intro above e below hstack he ha
    have hidx : HP.findMatchIdx m.stack (HP.toLowerS t) = some above.length := by
      rw [hstack]
      exact HP.findIdxA_append_cons _ above e below
        (fun a hx => by simpa using ha a hx) (by simpa using he)
    have hstack' : m.stack.take (above.length + 1) = above ++ [e] := by
      rw [hstack]
      exact HP.take_len_append above e below
    have hdrop : m.stack.drop (above.length + 1) = below := by
      rw [hstack]
      exact HP.drop_len_append above e below
    simp only [HP.parseEndTag, hidx]
    rw [hstack', hdrop, HP.closeEvs_append]
    simp [List.append_assoc]
  · intro ha
    have hidx : HP.findMatchIdx m.stack (HP.toLowerS t) = none :=
      HP.findIdxA_none _ m.stack (fun a hx => by simpa using ha a hx)
    simp only [HP.parseEndTag, hidx]

/-- Witness for C6: closing `Div` over the stack `[span, DIV, p]` (top
first) closes `span` (diagnosed) and `DIV` (silently, case-insensitively)
and leaves `p`. -/
theorem claim_c6_witness :
    HP.parseEndTag (some "Div".data)
      { stack := [⟨"span".data, "span".data, []⟩, ⟨"DIV".data, "div".data, []⟩,
                  ⟨"p".data, "p".data, []⟩],
        lastTag := some "span".data, evs := [] } =
      { stack := [⟨"p".data, "p".data, []⟩],
        lastTag := some "p".data,
        evs := [HP.Ev.warnNoMatchingEnd "span".data, HP.Ev.endT "span".data,
                HP.Ev.endT "DIV".data] } := by
  have h := (claim_c6_end_tag_resolution "Div".data
    { stack := [⟨"span".data, "span".data, []⟩, ⟨"DIV".data, "div".data, []⟩,
                ⟨"p".data, "p".data, []⟩],
      lastTag := some "span".data, evs := [] }).1
    [⟨"span".data, "span".data, []⟩] ⟨"DIV".data, "div".data, []⟩
    [⟨"p".data, "p".data, []⟩] rfl (by decide) (by decide)
  simpa using h

namespace HP

theorem stAttrLoop_pos_mono (orig : Str) :
    ∀ f pos acc, pos ≤ (stAttrLoop orig f pos acc).2.2 := by
  intro f
  induction f with
  | zero => intro pos acc; exact Nat.le_refl _
  | succ n ih =>
    intro pos acc
    simp only [stAttrLoop]
    split
    · exact Nat.le_refl _
    · split
      · next a heq => exact le_trans (Nat.le_add_right pos a.len) (ih (pos + a.len) (acc ++ [a]))
      · exact Nat.le_refl _

theorem parseStartTag_pos_mono (orig : Str) (pos : Nat) :
    pos ≤ (parseStartTag orig pos).2 := by
  unfold parseStartTag
  cases matchStartTagOpen (orig.drop pos) with
  | none => exact Nat.le_refl _
  | some p =>
    obtain ⟨name, l⟩ := p
    have h1 : pos ≤ pos + l := Nat.le_add_right _ _
    have h2 := stAttrLoop_pos_mono orig (orig.length + 1) (pos + l) []
    cases hres : (stAttrLoop orig (orig.length + 1) (pos + l) []).1 with
    | some e =>
      obtain ⟨slash, clen⟩ := e
      simp only [hres]
      have h3 : (stAttrLoop orig (orig.length + 1) (pos + l) []).2.2 ≤
          (stAttrLoop orig (orig.length + 1) (pos + l) []).2.2 + clen :=
        Nat.le_add_right _ _
      omega
    | none =>
      simp only [hres]
      omega

theorem textPhase_pos_mono (orig : Str) (pos1 : Nat) (te : Option Nat) (m : MSt) :
    pos1 ≤ (textPhase orig pos1 te m).pos :=
  Nat.le_add_right _ _

theorem tryComment_pos (orig : Str) (o : Opts) (s : PSt) (s1 : PSt)
    (h : tryComment orig o s = some s1) : s.pos ≤ s1.pos := by
  simp only [tryComment] at h
  by_cases hc : isCommentStart (orig.drop s.pos)
  · rw [if_pos hc] at h
    cases hce : findSub "-->".data (orig.drop s.pos) with
    | some ce =>
      rw [hce] at h
      cases h
      exact Nat.le_add_right _ _
    | none =>
      rw [hce] at h
      cases h
  · rw [if_neg hc] at h
    cases h

theorem tryConditional_pos (orig : Str) (s : PSt) (s1 : PSt)
    (h : tryConditional orig s = some s1) : s.pos ≤ s1.pos := by
  simp only [tryConditional] at h
  by_cases hc : isConditionalStart (orig.drop s.pos)
  · rw [if_pos hc] at h
    cases hce : findSub "]>".data (orig.drop s.pos) with
    | some ce =>
      rw [hce] at h
      cases h
      exact Nat.le_add_right _ _
    | none =>
      rw [hce] at h
      cases h
  · rw [if_neg hc] at h
    cases h

theorem normalStep_pos_mono (orig : Str) (o : Opts) (s : PSt) :
    s.pos ≤ (normalStep orig o s).pos := by
  simp only [normalStep]
  split
  · split
    · next s1 heq => exact tryComment_pos orig o s s1 heq
    · split
      · next s1 heq => exact tryConditional_pos orig s s1 heq
      · split
        · exact Nat.le_add_right _ _
        · split
          · exact Nat.le_add_right _ _
          · split
            · next mt p1 heq =>
              have hst : s.pos ≤ p1 := by
                have h := parseStartTag_pos_mono orig s.pos
                rw [heq] at h
                exact h
              split
              · exact le_trans hst (Nat.le_succ p1)
              · exact hst
            · next p1 heq =>
              have hst : s.pos ≤ p1 := by
                have h := parseStartTag_pos_mono orig s.pos
                rw [heq] at h
                exact h
              exact le_trans hst (textPhase_pos_mono orig p1 _ s.m)
  · exact textPhase_pos_mono orig s.pos _ s.m

theorem plaintextStep_pos_mono (orig : Str) (lt : Str) (s : PSt) :
    s.pos ≤ (plaintextStep orig lt s).pos := by
  simp only [plaintextStep]
  split
  · exact Nat.le_add_right _ _
  · exact Nat.le_refl _

theorem stepBody_pos_mono (orig : Str) (o : Opts) (s : PSt) :
    s.pos ≤ (stepBody orig o s).pos := by
  simp only [stepBody]
  split
  · split
    · next lt _ _ => exact plaintextStep_pos_mono orig lt s
    · exact normalStep_pos_mono orig o s
  · exact normalStep_pos_mono orig o s

theorem parseLoopF_fuel (orig : Str) (o : Opts) :
    ∀ f1 f2 s, orig.length - s.pos < f1 → orig.length - s.pos < f2 →
      parseLoopF orig o f1 s = parseLoopF orig o f2 s := by
  intro f1
  induction f1 with
  | zero =>
    intro f2 s h1 _
    omega
  | succ n ih =>
    intro f2 s h1 h2
    cases f2 with
    | zero => omega
    | succ m =>
      show parseLoopF orig o (n + 1) s = parseLoopF orig o (m + 1) s
      unfold parseLoopF
      by_cases hend : orig.length ≤ s.pos
      · rw [if_pos hend, if_pos hend]
      · rw [if_neg hend, if_neg hend]
        by_cases hp : (stepBody orig o s).pos = s.pos
        · rw [if_pos hp, if_pos hp]
        · rw [if_neg hp, if_neg hp]
          have hmono := stepBody_pos_mono orig o s
          apply ih
          · omega
          · omega

end HP

/-- C5 counterexample to the claim as stated: on the input `<div><` the
trailing fragment `<` makes no scanning progress and is emitted verbatim
as text, but it is NOT diagnosed as a mal-formatted tag — the open-element
stack still holds `div` at that point, so the `Mal-formatted tag` warning
is skipped and only the unclosed-tag cleanup diagnostic appears. -/
theorem claim_c5_counterexample :
    (HP.parseHTML "<div><".data
      { expectHTML := true, isUnaryTag := fun _ => false,
        canBeLeftOpenTag := fun _ => false, isNonPhrasingTag := fun _ => false,
        shouldKeepComment := true, shouldDecodeNewlines := false,
        shouldDecodeNewlinesForHref := false }).m.evs =
      [HP.Ev.start "div".data [] false, HP.Ev.chars ['<'],
       HP.Ev.warnNoMatchingEnd "div".data, HP.Ev.endT "div".data]
    ∧ ∀ txt, HP.Ev.warnMalformed txt ∉
        (HP.parseHTML "<div><".data
          { expectHTML := true, isUnaryTag := fun _ => false,
            canBeLeftOpenTag := fun _ => false, isNonPhrasingTag := fun _ => false,
            shouldKeepComment := true, shouldDecodeNewlines := false,
            shouldDecodeNewlinesForHref := false }).m.evs := by
  have hevs :
      (HP.parseHTML "<div><".data
        { expectHTML := true, isUnaryTag := fun _ => false,
          canBeLeftOpenTag := fun _ => false, isNonPhrasingTag := fun _ => false,
          shouldKeepComment := true, shouldDecodeNewlines := false,
          shouldDecodeNewlinesForHref := false }).m.evs =
        [HP.Ev.start "div".data [] false, HP.Ev.chars ['<'],
         HP.Ev.warnNoMatchingEnd "div".data, HP.Ev.endT "div".data] := by decide
  refine ⟨hevs, ?_⟩
  intro txt hmem
  rw [hevs] at hmem
  simp at hmem

/-- C5 (amended): the scanner always terminates — with fuel exceeding the
unconsumed length, the fuelled loop's result is fuel-independent — and a
pass that makes no scanning progress emits the remaining malformed
fragment verbatim via `chars` and stops; the mal-formatted-tag diagnostic
accompanies it exactly when the open-element stack is empty at that point
(otherwise the end-of-input cleanup reports the unclosed tags instead). -/
theorem claim_c5_termination_no_progress (orig : HP.Str) (o : HP.Opts) (s : HP.PSt)
    (f1 f2 : Nat) (hf1 : orig.length - s.pos < f1) (hf2 : orig.length - s.pos < f2) :
    HP.parseLoopF orig o f1 s = HP.parseLoopF orig o f2 s
    ∧ (s.pos < orig.length → (HP.stepBody orig o s).pos = s.pos →
        HP.parseLoopF orig o f1 s = HP.noProgressFinish orig (HP.stepBody orig o s)
        ∧ (HP.noProgressFinish orig (HP.stepBody orig o s)).m.evs =
            (HP.stepBody orig o s).m.evs
              ++ [HP.Ev.chars (orig.drop s.pos)]
              ++ (if (HP.stepBody orig o s).m.stack.isEmpty
                  then [HP.Ev.warnMalformed (orig.drop s.pos)] else [])) := by
  refine ⟨HP.parseLoopF_fuel orig o f1 f2 s hf1 hf2, ?_⟩
  intro hlt hp
  constructor
  · cases f1 with
    | zero => omega
    | succ n =>
      show HP.parseLoopF orig o (n + 1) s = _
      unfold HP.parseLoopF
      rw [if_neg (by omega), if_pos hp]
  · simp [HP.noProgressFinish, hp]

/-- Witness for C5's amended statement: on the input `<`, scanning makes
no progress at the start state, any two sufficient fuels agree, and the
no-progress exit fires with the mal-formatted diagnostic (the stack is
empty). -/
theorem claim_c5_witness :
    HP.parseLoopF "<".data
      { expectHTML := true, isUnaryTag := fun _ => false,
        canBeLeftOpenTag := fun _ => false, isNonPhrasingTag := fun _ => false,
        shouldKeepComment := true, shouldDecodeNewlines := false,
        shouldDecodeNewlinesForHref := false } 2
      { pos := 0, m := { stack := [], lastTag := none, evs := [] } } =
      HP.parseLoopF "<".data
        { expectHTML := true, isUnaryTag := fun _ => false,
          canBeLeftOpenTag := fun _ => false, isNonPhrasingTag := fun _ => false,
          shouldKeepComment := true, shouldDecodeNewlines := false,
          shouldDecodeNewlinesForHref := false } 9
        { pos := 0, m := { stack := [], lastTag := none, evs := [] } }
    ∧ HP.parseLoopF "<".data
        { expectHTML := true, isUnaryTag := fun _ => false,
          canBeLeftOpenTag := fun _ => false, isNonPhrasingTag := fun _ => false,
          shouldKeepComment := true, shouldDecodeNewlines := false,
          shouldDecodeNewlinesForHref := false } 2
        { pos := 0, m := { stack := [], lastTag := none, evs := [] } } =
      HP.noProgressFinish "<".data
        (HP.stepBody "<".data
          { expectHTML := true, isUnaryTag := fun _ => false,
            canBeLeftOpenTag := fun _ => false, isNonPhrasingTag := fun _ => false,
            shouldKeepComment := true, shouldDecodeNewlines := false,
            shouldDecodeNewlinesForHref := false }
          { pos := 0, m := { stack := [], lastTag := none, evs := [] } }) := by
  have h := claim_c5_termination_no_progress "<".data
    { expectHTML := true, isUnaryTag := fun _ => false,
      canBeLeftOpenTag := fun _ => false, isNonPhrasingTag := fun _ => false,
      shouldKeepComment := true, shouldDecodeNewlines := false,
      shouldDecodeNewlinesForHref := false }
    { pos := 0, m := { stack := [], lastTag := none, evs := [] } }
    2 9 (by decide) (by decide)
  exact ⟨h.1, (h.2 (by decide) (by decide)).1⟩
